import Mathlib

/-!
# Verification of `tiktok_collection_dl/downloader.py`

A shallow embedding of the metadata-resolution and folder-naming pipeline of
`tiktok-collection-dl` (file `src/tiktok_collection_dl/downloader.py`), together
with theorems settling the frozen claims about it.

Modelling conventions:
* Python `str` is Lean `String` (a list of Unicode scalar values, matching
  Python's code-point view of strings for the ASCII/BMP data handled here).
* Python `dict` (the `CollectionInfo` mapping) is an insertion-ordered
  association list `PyDict`; assignment updates in place or appends, as in
  CPython.
* `Optional[str]` is `Option String`; Python truthiness of an `Optional[str]`
  is `truthyOpt` (some non-empty string).
* The two subprocess calls are modelled by explicit outcome parameters
  (`FetchOutcome`, `DownloadOutcome`); `FileNotFoundError` is the `notFound`
  constructor.  `run`'s stderr output is returned explicitly next to the exit
  code; stdout progress prints are diagnostics outside the data contract and
  are not modelled.
* Case mapping (`str.lower`/`str.upper`) is modelled on the ASCII range, which
  covers every string this development evaluates.
-/

/-! ## Python string primitives -/

/-- The set of characters stripped by Python `str.strip()` and matched by the
regex class `\s` on `str` patterns (Unicode whitespace). -/
def pyIsSpace (c : Char) : Bool :=
  let n := c.toNat
  (9 ≤ n && n ≤ 13) || (28 ≤ n && n ≤ 31) || n = 32 || n = 0x85 || n = 0xA0 ||
    n = 0x1680 || (0x2000 ≤ n && n ≤ 0x200A) || n = 0x2028 || n = 0x2029 ||
    n = 0x202F || n = 0x205F || n = 0x3000

/-- Characters Python `str.splitlines` treats as line boundaries. -/
def isLineBreak (c : Char) : Bool :=
  let n := c.toNat
  n = 10 || n = 13 || n = 11 || n = 12 || n = 28 || n = 29 || n = 30 ||
    n = 0x85 || n = 0x2028 || n = 0x2029

/-- ASCII case lowering (model of Python `str.lower` on the data at hand). -/
def asciiLower (c : Char) : Char :=
  if 'A' ≤ c && c ≤ 'Z' then Char.ofNat (c.toNat + 32) else c

/-- ASCII case raising (model of Python `str.upper` on the data at hand). -/
def asciiUpper (c : Char) : Char :=
  if 'a' ≤ c && c ≤ 'z' then Char.ofNat (c.toNat - 32) else c

def pyLower (s : String) : String := String.mk (s.data.map asciiLower)

def pyUpper (s : String) : String := String.mk (s.data.map asciiUpper)

/-- Strip `pyIsSpace` characters from both ends of a character list. -/
def stripChars (l : List Char) : List Char :=
  (l.dropWhile pyIsSpace).rdropWhile pyIsSpace

/-- Python `str.strip()`. -/
def pyStrip (s : String) : String := String.mk (stripChars s.data)

/-- Worker for `pySplitlines`: accumulates the current line (reversed). -/
def splitlinesGo : List Char → List Char → List (List Char)
  | cur, [] => [cur.reverse]
  | cur, '\r' :: '\n' :: r =>
      cur.reverse :: (if r.isEmpty then [] else splitlinesGo [] r)
  | cur, c :: r =>
      if isLineBreak c then cur.reverse :: (if r.isEmpty then [] else splitlinesGo [] r)
      else splitlinesGo (c :: cur) r

/-- Python `str.splitlines()`. -/
def pySplitlines (s : String) : List String :=
  if s.data.isEmpty then [] else (splitlinesGo [] s.data).map String.mk

/-- Worker for `pySplit`: split at each leftmost occurrence of `sep`.  Every
splitting step consumes `sep.length ≥ 1` characters, so `fuel = length`
makes the fuel-out case unreachable for the non-empty separators used
here. -/
def splitGo (sep : List Char) : Nat → List Char → List (List Char)
  | _, [] => [[]]
  | 0, l => [l]
  | fuel + 1, c :: rest =>
      if sep.isPrefixOf (c :: rest) then
        [] :: splitGo sep fuel ((c :: rest).drop sep.length)
      else
        match splitGo sep fuel rest with
        | f :: fs => (c :: f) :: fs
        | [] => [[c]]

/-- Python `s.split(sep)` for a non-empty separator. -/
def pySplit (s sep : String) : List String :=
  (splitGo sep.data s.data.length s.data).map String.mk

/-- Worker for `pyReplace`: replace each leftmost non-overlapping occurrence
of `pat`.  Every step consumes at least one character (the embedding is only
used with non-empty patterns, matching the call sites). -/
def replaceGo (pat sub : List Char) : Nat → List Char → List Char
  | _, [] => []
  | 0, l => l
  | fuel + 1, c :: rest =>
      if pat.isPrefixOf (c :: rest) && !pat.isEmpty then
        sub ++ replaceGo pat sub fuel ((c :: rest).drop pat.length)
      else c :: replaceGo pat sub fuel rest

/-- Python `s.replace(pat, sub)` (non-empty `pat`). -/
def pyReplace (s pat sub : String) : String :=
  String.mk (replaceGo pat.data sub.data s.data.length s.data)

/-- Python truthiness of an `Optional[str]`: `some` of a non-empty string. -/
def truthyOpt : Option String → Bool
  | some s => !s.isEmpty
  | none => false

/-! ## The CollectionInfo dictionary

Python `dict` with string keys and `Optional[str]` values, as an
insertion-ordered association list.  Assignment (`d[k] = v`) updates the
existing entry in place or appends a fresh one, as in CPython. -/

abbrev PyDict := List (String × Option String)

/-- Dictionary lookup: `some v` when the key is present (with value `v`),
`none` when the key is absent. -/
def pyLookup : PyDict → String → Option (Option String)
  | [], _ => none
  | (k, v) :: rest, key => if k = key then some v else pyLookup rest key

/-- Python `d[key] = v`. -/
def pySet : PyDict → String → Option String → PyDict
  | [], key, v => [(key, v)]
  | (k, w) :: rest, key, v =>
      if k = key then (key, v) :: rest else (k, w) :: pySet rest key v

/-- Python `d.get(key)` on an `Optional[str]`-valued dict: the stored value
when present, `None` otherwise. -/
def pyGetOpt (d : PyDict) (key : String) : Option String :=
  match pyLookup d key with
  | some v => v
  | none => none

/-- Python truthiness of `d[key]` / `d.get(key)` for this dict shape. -/
def truthyKey (d : PyDict) (key : String) : Bool :=
  truthyOpt (pyGetOpt d key)

theorem pyLookup_pySet_self (d : PyDict) (k : String) (v : Option String) :
    pyLookup (pySet d k v) k = some v := by
  induction d with
  | nil => simp [pySet, pyLookup]
  | cons hd tl ih =>
      obtain ⟨k', w⟩ := hd
      by_cases h : k' = k
      · simp [pySet, pyLookup, h]
      · simp [pySet, pyLookup, h, ih]

theorem pyLookup_pySet_other (d : PyDict) (k k' : String) (v : Option String)
    (h : k' ≠ k) : pyLookup (pySet d k v) k' = pyLookup d k' := by
  have hne : k ≠ k' := fun hh => h hh.symm
  induction d with
  | nil => simp [pySet, pyLookup, hne]
  | cons hd tl ih =>
      obtain ⟨k₀, w⟩ := hd
      by_cases h0 : k₀ = k
      · subst h0
        simp [pySet, pyLookup, hne]
      · simp only [pySet, if_neg h0, pyLookup]
        by_cases h1 : k₀ = k'
        · simp [h1]
        · simp [h1, ih]

/-! ## Text Sanitizer (`sanitize_folder_name`, lines 122–126)

```python
def sanitize_folder_name(name: str) -> str:
    name = re.sub(r'[<>:"/\\|?*]', "", name)
    name = re.sub(r"[\x00-\x1f]", "", name)
    name = re.sub(r"\s+", " ", name).strip()
    return name
```
-/

/-- The character class `[<>:"/\\|?*]` of the first substitution. -/
def isForbidden (c : Char) : Bool :=
  c = '<' || c = '>' || c = ':' || c = '"' || c = '/' || c = '\\' ||
    c = '|' || c = '?' || c = '*'

/-- The character class `[\x00-\x1f]` of the second substitution. -/
def isControl (c : Char) : Bool := c.toNat ≤ 31

/-- Worker for `collapseWS`; the flag records whether the scanner is inside a
whitespace run whose replacement space has already been emitted. -/
def collapseGo : Bool → List Char → List Char
  | _, [] => []
  | inRun, c :: rest =>
      if pyIsSpace c then
        if inRun then collapseGo true rest else ' ' :: collapseGo true rest
      else c :: collapseGo false rest

/-- `re.sub(r"\s+", " ", ·)`: replace each maximal whitespace run by one
space. -/
def collapseWS (l : List Char) : List Char := collapseGo false l

def sanitize_folder_name (s : String) : String :=
  String.mk (stripChars (collapseWS
    ((s.data.filter (fun c => !isForbidden c)).filter (fun c => !isControl c))))

/-! ## Percent-decoding (`urllib.parse.unquote`)

`unquote` turns each maximal run of valid `%XX` escapes into a byte sequence
and decodes it as UTF-8 with `errors="replace"` (one U+FFFD per maximal
ill-formed subpart); a `%` not followed by two hex digits stays literal. -/

def isHexChar (c : Char) : Bool :=
  let n := c.toNat
  (48 ≤ n && n ≤ 57) || (97 ≤ n && n ≤ 102) || (65 ≤ n && n ≤ 70)

def hexVal (c : Char) : Nat :=
  if '0' ≤ c && c ≤ '9' then c.toNat - 48
  else if 'a' ≤ c && c ≤ 'f' then c.toNat - 87
  else c.toNat - 55

/-- Collect the maximal leading run of `%XX` escapes as bytes, returning the
bytes and the unconsumed remainder. -/
def collectBytes : List Char → List Nat × List Char
  | '%' :: h1 :: h2 :: rest =>
      if isHexChar h1 && isHexChar h2 then
        let p := collectBytes rest
        ((hexVal h1 * 16 + hexVal h2) :: p.1, p.2)
      else ([], '%' :: h1 :: h2 :: rest)
  | l => ([], l)

theorem collectBytes_len (l : List Char) :
    (collectBytes l).2.length + 3 * (collectBytes l).1.length = l.length := by
  induction l using collectBytes.induct with
  | case1 h1 h2 rest hhex ih =>
      simp only [collectBytes, if_pos hhex, List.length_cons]
      omega
  | case2 h1 h2 rest hhex =>
      simp [collectBytes, hhex]
  | case3 l hl => simp [collectBytes.eq_def]

/-- U+FFFD, the replacement character. -/
def repl : Char := Char.ofNat 0xFFFD

def isCont (b : Nat) : Bool := 0x80 ≤ b && b ≤ 0xBF

/-- Valid range of the first continuation byte, which depends on the lead
byte (excludes overlong encodings, surrogates and values above U+10FFFF). -/
def cont1OK (b b2 : Nat) : Bool :=
  if b = 0xE0 then 0xA0 ≤ b2 && b2 ≤ 0xBF
  else if b = 0xED then 0x80 ≤ b2 && b2 ≤ 0x9F
  else if b = 0xF0 then 0x90 ≤ b2 && b2 ≤ 0xBF
  else if b = 0xF4 then 0x80 ≤ b2 && b2 ≤ 0x8F
  else isCont b2

/-- Worker for UTF-8 decoding with `errors="replace"`; every step consumes at
least one byte, so `fuel = length` makes the fuel-out case unreachable. -/
def utf8DecGo : Nat → List Nat → List Char
  | _, [] => []
  | 0, l => List.replicate l.length repl
  | fuel + 1, b :: rest =>
    if b < 0x80 then Char.ofNat b :: utf8DecGo fuel rest
    else if 0xC2 ≤ b && b ≤ 0xDF then
      match rest with
      | b2 :: r2 =>
          if isCont b2 then
            Char.ofNat ((b - 0xC0) * 64 + (b2 - 0x80)) :: utf8DecGo fuel r2
          else repl :: utf8DecGo fuel (b2 :: r2)
      | [] => [repl]
    else if 0xE0 ≤ b && b ≤ 0xEF then
      match rest with
      | b2 :: r2 =>
          if cont1OK b b2 then
            match r2 with
            | b3 :: r3 =>
                if isCont b3 then
                  Char.ofNat ((b - 0xE0) * 4096 + (b2 - 0x80) * 64 + (b3 - 0x80)) ::
                    utf8DecGo fuel r3
                else repl :: utf8DecGo fuel (b3 :: r3)
            | [] => [repl]
          else repl :: utf8DecGo fuel (b2 :: r2)
      | [] => [repl]
    else if 0xF0 ≤ b && b ≤ 0xF4 then
      match rest with
      | b2 :: r2 =>
          if cont1OK b b2 then
            match r2 with
            | b3 :: r3 =>
                if isCont b3 then
                  match r3 with
                  | b4 :: r4 =>
                      if isCont b4 then
                        Char.ofNat ((b - 0xF0) * 262144 + (b2 - 0x80) * 4096 +
                            (b3 - 0x80) * 64 + (b4 - 0x80)) :: utf8DecGo fuel r4
                      else repl :: utf8DecGo fuel (b4 :: r4)
                  | [] => [repl]
                else repl :: utf8DecGo fuel (b3 :: r3)
            | [] => [repl]
          else repl :: utf8DecGo fuel (b2 :: r2)
      | [] => [repl]
    else repl :: utf8DecGo fuel rest

/-- UTF-8 decoding with `errors="replace"`. -/
def utf8DecodeReplace (l : List Nat) : List Char := utf8DecGo l.length l

/-- Character-level worker of `urllib.parse.unquote`; every step consumes at
least one character, so `fuel = length` makes the fuel-out case
unreachable. -/
def unquoteGo : Nat → List Char → List Char
  | _, [] => []
  | 0, l => l
  | fuel + 1, '%' :: rest =>
      match collectBytes ('%' :: rest) with
      | ([], _) => '%' :: unquoteGo fuel rest
      | (b :: bs, r) => utf8DecodeReplace (b :: bs) ++ unquoteGo fuel r
  | fuel + 1, c :: rest => c :: unquoteGo fuel rest

def unquoteChars (l : List Char) : List Char := unquoteGo l.length l

/-- Python `urllib.parse.unquote`. -/
def pyUnquote (s : String) : String := String.mk (unquoteChars s.data)

/-! ## URL Title Extractor (`extract_title_from_tiktok_url`, lines 29–45)

```python
match = re.search(r'/collection/(.+?)-(\d{10,})(?:[/?#]|$)', url)
if match:
    decoded = urllib.parse.unquote(match.group(1))
    return decoded.strip() or None
return None
```

The regex is embedded operationally: `reSearch` scans start positions left to
right; the non-greedy group `(.+?)` is grown one character at a time
(`matchTail`); the greedy `(\d{10,})` run backtracks from the maximal digit
run down to 10 (`tryDigits`); `(?:[/?#]|$)` is `boundaryOk` (`$` matches at
end of string or just before a final newline). -/

def isDigitCh (c : Char) : Bool := '0' ≤ c && c ≤ '9'

/-- `(?:[/?#]|$)` at the current position. -/
def boundaryOk : List Char → Bool
  | [] => true
  | c :: rest => c = '/' || c = '?' || c = '#' || (c = '\n' && rest.isEmpty)

/-- Backtracking for `(\d{10,})`: try to consume `ℓ` digits (the first `ℓ`
characters of `u`, digits by construction) down to the minimum of 10. -/
def tryDigits (u : List Char) : Nat → Bool
  | 0 => false
  | ℓ + 1 =>
      if ℓ + 1 < 10 then false
      else if boundaryOk (u.drop (ℓ + 1)) then true
      else tryDigits u ℓ

/-- `(\d{10,})(?:[/?#]|$)` at the start of `u`. -/
def digitsOk (u : List Char) : Bool := tryDigits u (u.takeWhile isDigitCh).length

/-- `(.+?)-(\d{10,})(?:[/?#]|$)` at the start of `t`, returning the shortest
group-1 (`.` does not match a newline). -/
def matchTail : List Char → Option (List Char)
  | [] => none
  | c :: rest =>
      if c = '\n' then none
      else if rest.head? = some '-' ∧ digitsOk rest.tail then some [c]
      else (matchTail rest).map (c :: ·)

def collectionLit : List Char := "/collection/".data

/-- `re.search` for the collection pattern: scan start positions left to
right, succeed at the first one where the literal and the tail match. -/
def reSearch : List Char → Option (List Char)
  | [] => none
  | c :: rest =>
      if collectionLit.isPrefixOf (c :: rest) then
        match matchTail ((c :: rest).drop collectionLit.length) with
        | some g => some g
        | none => reSearch rest
      else reSearch rest

def extract_title_from_tiktok_url (url : String) : Option String :=
  match reSearch url.data with
  | some g =>
      let s := pyStrip (pyUnquote (String.mk g))
      if s.isEmpty then none else some s
  | none => none

/-! ## Metadata Fetcher and Title Reconciler (`get_collection_info`, lines 48–93)

The `subprocess.run` call is replaced by an explicit `FetchOutcome`:
`notFound` models `FileNotFoundError` (binary missing), `output s` models a
completed call with captured stdout `s`. -/

def SUPPORTED_FIELDS : List String := ["uploader", "playlist_title"]

def DELIM : String := "|||"

inductive FetchOutcome where
  | notFound
  | output (stdout : String)

/-- `result.stdout.strip().splitlines()[0] if result.stdout.strip() else ""`. -/
def pyFirstLine (s : String) : String :=
  if (pyStrip s).isEmpty then "" else (pySplitlines (pyStrip s)).headD ""

/-- The per-field loop of `get_collection_info` (lines 82–89):
`raw = parts[i].strip() if i < len(parts) else ""`, treat empty/`NA` as
missing, keep a truthy URL-derived `playlist_title`, else store the
percent-decoded value. -/
def fieldsLoop (parts : List String) : PyDict → Nat → List String → PyDict
  | info, _, [] => info
  | info, i, field :: rest =>
      let raw := pyStrip ((parts.drop i).headD "")
      let info' :=
        if ¬raw.isEmpty ∧ pyUpper raw ≠ "NA" then
          if field = "playlist_title" ∧ truthyKey info "playlist_title" then info
          else pySet info field (some (pyUnquote raw))
        else info
      fieldsLoop parts info' (i + 1) rest

def get_collection_info (url : String) (fetch : FetchOutcome) : PyDict :=
  let info : PyDict := SUPPORTED_FIELDS.map (fun f => (f, (none : Option String)))
  let url_title := extract_title_from_tiktok_url url
  let info := if truthyOpt url_title then pySet info "playlist_title" url_title else info
  match fetch with
  | .notFound => info
  | .output stdout =>
      let line := pyFirstLine stdout
      let parts := pySplit line DELIM
      fieldsLoop parts info 0 SUPPORTED_FIELDS

/-- `parts[i].strip() if i < len(parts) else ""`, as a function of the raw
stdout (specification view of the loop's `raw`). -/
def fetchedRaw (stdout : String) (i : Nat) : String :=
  pyStrip ((((pySplit (pyFirstLine stdout) DELIM)).drop i).headD "")

/-- The value the fetch path yields for field position `i`: absent for an
empty or case-insensitive `"NA"` value, the percent-decoded value
otherwise. -/
def fetchedValue (stdout : String) (i : Nat) : Option String :=
  let raw := fetchedRaw stdout i
  if ¬raw.isEmpty ∧ pyUpper raw ≠ "NA" then some (pyUnquote raw) else none

/-- What the fetch step contributes for field position `i` (`none` for every
field when the external binary is missing). -/
def fetchedOpt : FetchOutcome → Nat → Option String
  | .notFound, _ => none
  | .output s, i => fetchedValue s i

/-! ## Uploader-prefix cleanup (`strip_uploader_prefix`, lines 96–111) -/

/-- `title.lower().startswith(uploader.lower())`. -/
def startsWithCI (title uploader : String) : Bool :=
  (pyLower uploader).data.isPrefixOf (pyLower title).data

/-- `.lstrip("-_ ")`. -/
def lstripSeps (s : String) : String :=
  String.mk (s.data.dropWhile (fun c => c = '-' || c = '_' || c = ' '))

def strip_uploader_prefix (info : PyDict) : PyDict :=
  let title := (pyGetOpt info "playlist_title").getD ""
  let uploader := (pyGetOpt info "uploader").getD ""
  if title.isEmpty || uploader.isEmpty then info
  else if startsWithCI title uploader then
    let stripped := lstripSeps (title.drop uploader.length)
    if stripped.isEmpty then info
    else pySet info "playlist_title" (some stripped)
  else info

/-! ## Folder Name Resolver (`apply_folder_template`, lines 114–119) -/

/-- The substitution loop: for each field of `info` in order, replace every
occurrence of `%(field)s` by the value (or `""`). -/
def substFields (template : String) (info : PyDict) : String :=
  info.foldl (fun r kv => pyReplace r ("%(" ++ kv.1 ++ ")s") (kv.2.getD "")) template

/-- `re.sub(r"%\([^)]+\)s", "", ·)`: a single left-to-right pass deleting
each non-overlapping occurrence of the placeholder pattern; scanning resumes
after the deleted occurrence. -/
def removePHGo : Nat → List Char → List Char
  | _, [] => []
  | 0, l => l
  | fuel + 1, '%' :: '(' :: rest =>
      let inner := rest.takeWhile (fun c => c ≠ ')')
      match rest.drop inner.length with
      | ')' :: 's' :: r2 =>
          if inner.isEmpty then '%' :: removePHGo fuel ('(' :: rest)
          else removePHGo fuel r2
      | _ => '%' :: removePHGo fuel ('(' :: rest)
  | fuel + 1, c :: rest => c :: removePHGo fuel rest

def removePlaceholders (l : List Char) : List Char := removePHGo l.length l

def apply_folder_template (template : String) (info : PyDict) : String :=
  let result := substFields template info
  let result := String.mk (removePlaceholders result.data)
  let s := sanitize_folder_name result
  if s.isEmpty then "collection" else s

/-- Does `s` contain an occurrence of the `%(anything)s` placeholder
pattern?  (Direct search, independent of `removePlaceholders`.) -/
def placeholderAtHead : List Char → Bool
  | '%' :: '(' :: rest =>
      match rest.drop (rest.takeWhile (fun c => c ≠ ')')).length with
      | ')' :: 's' :: _ => !(rest.takeWhile (fun c => c ≠ ')')).isEmpty
      | _ => false
  | _ => false

def hasPlaceholder (s : String) : Bool :=
  s.data.tails.any placeholderAtHead

/-! ## Archive Path Resolver (`get_archive_path`, lines 16–18)

`hashlib.sha256(url.encode()).hexdigest()[:12]` is embedded as a full
SHA-256 implementation over the UTF-8 bytes of the URL, with 32-bit words as
`Nat` reduced modulo `2^32`.  `Path` values are modelled as strings joined
with `"/"`. -/

/-- Python `str.encode()` (UTF-8). -/
def utf8EncodeChar (c : Char) : List Nat :=
  let n := c.toNat
  if n < 0x80 then [n]
  else if n < 0x800 then [0xC0 + n / 64, 0x80 + n % 64]
  else if n < 0x10000 then [0xE0 + n / 4096, 0x80 + n / 64 % 64, 0x80 + n % 64]
  else [0xF0 + n / 262144, 0x80 + n / 4096 % 64, 0x80 + n / 64 % 64, 0x80 + n % 64]

def utf8Encode (s : String) : List Nat := (s.data.map utf8EncodeChar).flatten

def w32 (n : Nat) : Nat := n % 4294967296

def rotr (n x : Nat) : Nat := x / 2 ^ n + x % 2 ^ n * 2 ^ (32 - n)

def shr (n x : Nat) : Nat := x / 2 ^ n

def bnot32 (x : Nat) : Nat := x ^^^ 4294967295

def smallSigma0 (x : Nat) : Nat := rotr 7 x ^^^ rotr 18 x ^^^ shr 3 x

def smallSigma1 (x : Nat) : Nat := rotr 17 x ^^^ rotr 19 x ^^^ shr 10 x

def bigSigma0 (x : Nat) : Nat := rotr 2 x ^^^ rotr 13 x ^^^ rotr 22 x

def bigSigma1 (x : Nat) : Nat := rotr 6 x ^^^ rotr 11 x ^^^ rotr 25 x

def chFn (x y z : Nat) : Nat := x &&& y ^^^ bnot32 x &&& z

def majFn (x y z : Nat) : Nat := x &&& y ^^^ x &&& z ^^^ y &&& z

structure Hash8 where
  a : Nat
  b : Nat
  c : Nat
  d : Nat
  e : Nat
  f : Nat
  g : Nat
  h : Nat
deriving DecidableEq

def initH : Hash8 :=
  ⟨0x6a09e667, 0xbb67ae85, 0x3c6ef372, 0xa54ff53a,
   0x510e527f, 0x9b05688c, 0x1f83d9ab, 0x5be0cd19⟩

def K256 : List Nat :=
  [0x428a2f98, 0x71374491, 0xb5c0fbcf, 0xe9b5dba5] ++
  [0x3956c25b, 0x59f111f1, 0x923f82a4, 0xab1c5ed5] ++
  [0xd807aa98, 0x12835b01, 0x243185be, 0x550c7dc3] ++
  [0x72be5d74, 0x80deb1fe, 0x9bdc06a7, 0xc19bf174] ++
  [0xe49b69c1, 0xefbe4786, 0x0fc19dc6, 0x240ca1cc] ++
  [0x2de92c6f, 0x4a7484aa, 0x5cb0a9dc, 0x76f988da] ++
  [0x983e5152, 0xa831c66d, 0xb00327c8, 0xbf597fc7] ++
  [0xc6e00bf3, 0xd5a79147, 0x06ca6351, 0x14292967] ++
  [0x27b70a85, 0x2e1b2138, 0x4d2c6dfc, 0x53380d13] ++
  [0x650a7354, 0x766a0abb, 0x81c2c92e, 0x92722c85] ++
  [0xa2bfe8a1, 0xa81a664b, 0xc24b8b70, 0xc76c51a3] ++
  [0xd192e819, 0xd6990624, 0xf40e3585, 0x106aa070] ++
  [0x19a4c116, 0x1e376c08, 0x2748774c, 0x34b0bcb5] ++
  [0x391c0cb3, 0x4ed8aa4a, 0x5b9cca4f, 0x682e6ff3] ++
  [0x748f82ee, 0x78a5636f, 0x84c87814, 0x8cc70208] ++
  [0x90befffa, 0xa4506ceb, 0xbef9a3f7, 0xc67178f2]

/-- Append the next word of the message schedule. -/
def wRound (w : List Nat) : List Nat :=
  w ++ [w32 (smallSigma1 (w.getD (w.length - 2) 0) + w.getD (w.length - 7) 0 +
    smallSigma0 (w.getD (w.length - 15) 0) + w.getD (w.length - 16) 0)]

def compressStep (s : Hash8) (kw : Nat × Nat) : Hash8 :=
  let t1 := w32 (s.h + bigSigma1 s.e + chFn s.e s.f s.g + kw.1 + kw.2)
  let t2 := w32 (bigSigma0 s.a + majFn s.a s.b s.c)
  ⟨w32 (t1 + t2), s.a, s.b, s.c, w32 (s.d + t1), s.e, s.f, s.g⟩

def compressBlock (h0 : Hash8) (block : List Nat) : Hash8 :=
  let w := (List.range 48).foldl (fun w _ => wRound w) block
  let s := (K256.zip w).foldl compressStep h0
  ⟨w32 (h0.a + s.a), w32 (h0.b + s.b), w32 (h0.c + s.c), w32 (h0.d + s.d),
   w32 (h0.e + s.e), w32 (h0.f + s.f), w32 (h0.g + s.g), w32 (h0.h + s.h)⟩

/-- SHA-256 padding: `0x80`, zeros, then the 8-byte big-endian bit length. -/
def padMessage (msg : List Nat) : List Nat :=
  let bitLen := msg.length * 8
  let z := (119 - msg.length % 64) % 64
  msg ++ [0x80] ++ List.replicate z 0 ++
    [bitLen / 2 ^ 56 % 256, bitLen / 2 ^ 48 % 256, bitLen / 2 ^ 40 % 256,
     bitLen / 2 ^ 32 % 256, bitLen / 2 ^ 24 % 256, bitLen / 2 ^ 16 % 256,
     bitLen / 2 ^ 8 % 256, bitLen % 256]

def bytesToWords : List Nat → List Nat
  | b1 :: b2 :: b3 :: b4 :: rest =>
      (((b1 * 256 + b2) * 256 + b3) * 256 + b4) :: bytesToWords rest
  | _ => []

def toBlocksGo : Nat → List Nat → List (List Nat)
  | _, [] => []
  | 0, l => [l]
  | fuel + 1, w :: ws => ((w :: ws).take 16) :: toBlocksGo fuel ((w :: ws).drop 16)

def toBlocks (l : List Nat) : List (List Nat) := toBlocksGo l.length l

def sha256Words (msg : List Nat) : Hash8 :=
  (toBlocks (bytesToWords (padMessage msg))).foldl compressBlock initH

def hexDigitCh (v : Nat) : Char :=
  if v < 10 then Char.ofNat (48 + v) else Char.ofNat (87 + v)

def wordToHex (w : Nat) : List Char :=
  [hexDigitCh (w / 16 ^ 7 % 16), hexDigitCh (w / 16 ^ 6 % 16),
   hexDigitCh (w / 16 ^ 5 % 16), hexDigitCh (w / 16 ^ 4 % 16),
   hexDigitCh (w / 16 ^ 3 % 16), hexDigitCh (w / 16 ^ 2 % 16),
   hexDigitCh (w / 16 % 16), hexDigitCh (w % 16)]

/-- `hashlib.sha256(bytes).hexdigest()`. -/
def sha256hex (msg : List Nat) : String :=
  let s := sha256Words msg
  String.mk (wordToHex s.a ++ wordToHex s.b ++ wordToHex s.c ++ wordToHex s.d ++
    wordToHex s.e ++ wordToHex s.f ++ wordToHex s.g ++ wordToHex s.h)

/-- `hashlib.sha256(url.encode()).hexdigest()`. -/
def sha256hexOfString (s : String) : String := sha256hex (utf8Encode s)

def get_archive_path (out_dir : String) (url : String) : String :=
  out_dir ++ "/" ++ (".yt-dlp-archive-" ++ (sha256hexOfString url).take 12 ++ ".txt")

/-! ## Configuration, Command Assembler and entry point (lines 133–249)

`cfg` is the validated configuration mapping; its consumed keys become
structure fields (`audio_quality` is stored already stringified, matching the
`str(...)` conversion at the use site).  `shlex.quote` is embedded after
CPython: a string of safe characters is returned as is, anything else is
wrapped in single quotes with embedded single quotes escaped. -/

structure Config where
  audio_format : String
  audio_quality : String
  output_template : String
  use_collection_folder : Bool
  collection_folder_template : Option String
  embed_collection_as_album : Bool
  strip_uploader_from_collection_title : Bool
  windows_safe_filenames : Bool
  no_overwrites : Bool
  ignore_errors : Bool
  extra_yt_dlp_args : List String

/-- A single-quote character, and a double-quote character. -/
def squote : String := String.singleton (Char.ofNat 39)

def dquote : String := String.singleton (Char.ofNat 34)

/-- Characters CPython's `shlex.quote` considers safe: ASCII letters, digits,
underscore, and `@ % + = : , .` together with the slash and the dash. -/
def shlexSafe (c : Char) : Bool :=
  let n := c.toNat
  (97 ≤ n && n ≤ 122) || (65 ≤ n && n ≤ 90) || (48 ≤ n && n ≤ 57) ||
    c = '_' || c = '@' || c = '%' || c = '+' || c = '=' || c = ':' ||
    c = ',' || c = '.' || c = '/' || c = '-'

/-- `shlex.quote`. -/
def shlexQuote (s : String) : String :=
  if s.isEmpty then squote ++ squote
  else if s.data.all shlexSafe then s
  else squote ++ pyReplace s squote (squote ++ dquote ++ squote ++ dquote ++ squote) ++ squote

/-- `metadata_flags` (lines 133–164). -/
def metadata_flags (cfg : Config) (album_name : Option String) : List String :=
  let extra := cfg.extra_yt_dlp_args
  let albumFlags :=
    if cfg.embed_collection_as_album then
      if truthyOpt album_name then
        let album_kv := shlexQuote ("album=" ++ album_name.getD "")
        ["--postprocessor-args", "ffmpeg-FFmpegExtractAudio:-metadata " ++ album_kv]
      else
        ["--parse-metadata", "playlist_title:%(album)s"] ++
          (if "--add-metadata" ∈ extra then [] else ["--add-metadata"])
    else []
  albumFlags ++ (if cfg.windows_safe_filenames then ["--windows-filenames"] else [])

/-- `build_command` (lines 171–199). -/
def build_command (url : String) (out_dir : String) (archive : String)
    (cfg : Config) (album_name : Option String) : List String :=
  (["yt-dlp",
    "--format", "bestaudio/best",
    "--extract-audio",
    "--audio-format", cfg.audio_format,
    "--audio-quality", cfg.audio_quality,
    "--output", out_dir ++ "/" ++ cfg.output_template,
    "--download-archive", archive,
    "--console-title"] ++
   (if cfg.no_overwrites then ["--no-overwrites"] else []) ++
   (if cfg.ignore_errors then ["--ignore-errors"] else []) ++
   metadata_flags cfg album_name ++
   (if !cfg.extra_yt_dlp_args.isEmpty then cfg.extra_yt_dlp_args else [])) ++
  [url]

/-- Outcome of the final download subprocess: `FileNotFoundError`,
`KeyboardInterrupt`, or completion with a return code. -/
inductive DownloadOutcome where
  | notFound
  | interrupted
  | completed (returncode : Int)

/-- `cfg.get("collection_folder_template", "%(playlist_title)s")`. -/
def templateOf (cfg : Config) : String :=
  cfg.collection_folder_template.getD "%(playlist_title)s"

/-- The info-resolution part of `run` (lines 206–218). -/
def resolve_info (url : String) (fetch : FetchOutcome) (cfg : Config) : PyDict :=
  if cfg.use_collection_folder || cfg.embed_collection_as_album then
    let info := get_collection_info url fetch
    if cfg.strip_uploader_from_collection_title then strip_uploader_prefix info
    else info
  else SUPPORTED_FIELDS.map (fun f => (f, (none : Option String)))

/-- `run` (lines 206–249), returning the exit status together with the lines
written to stderr (stdout progress prints are diagnostics and not part of
the data contract). -/
def run (url : String) (base_out_dir : String) (cfg : Config)
    (fetch : FetchOutcome) (dl : DownloadOutcome) : Int × List String :=
  let info := resolve_info url fetch cfg
  let out_dir :=
    if cfg.use_collection_folder then
      base_out_dir ++ "/" ++ apply_folder_template (templateOf cfg) info
    else base_out_dir
  let album_name :=
    if cfg.embed_collection_as_album then pyGetOpt info "playlist_title" else none
  let archive := get_archive_path out_dir url
  let _cmd := build_command url out_dir archive cfg album_name
  match dl with
  | .notFound => (1, ["[ERROR] yt-dlp not found — is it on your PATH?"])
  | .interrupted => (130, [])
  | .completed code => (code, [])

/-! ## Basic lemmas about the embedding -/

theorem isEmpty_mk (l : List Char) : (String.mk l).isEmpty = l.isEmpty := by
  rcases l with _ | ⟨c, r⟩
  · rfl
  · simp only [List.isEmpty_cons]
    rw [Bool.eq_false_iff]
    intro hc
    rw [String.isEmpty_iff] at hc
    exact List.cons_ne_nil c r (congrArg String.data hc)

theorem utf8DecGo_cons_ne_nil (fuel : Nat) (b : Nat) (rest : List Nat) :
    utf8DecGo (fuel + 1) (b :: rest) ≠ [] := by
  rw [utf8DecGo.eq_def]
  repeat' split
  all_goals simp_all

theorem utf8DecodeReplace_ne_nil (b : Nat) (rest : List Nat) :
    utf8DecodeReplace (b :: rest) ≠ [] := by
  simpa only [utf8DecodeReplace, List.length_cons] using
    utf8DecGo_cons_ne_nil rest.length b rest

theorem unquoteGo_cons_ne_nil (fuel : Nat) (c : Char) (rest : List Char) :
    unquoteGo (fuel + 1) (c :: rest) ≠ [] := by
  rw [unquoteGo.eq_def]
  repeat' split
  all_goals simp_all [utf8DecodeReplace_ne_nil]

theorem unquoteChars_ne_nil (c : Char) (rest : List Char) :
    unquoteChars (c :: rest) ≠ [] := by
  simpa only [unquoteChars, List.length_cons] using
    unquoteGo_cons_ne_nil rest.length c rest

/-- `unquote` of a non-empty string is non-empty. -/
theorem pyUnquote_isEmpty (s : String) (h : s.isEmpty = false) :
    (pyUnquote s).isEmpty = false := by
  obtain ⟨l⟩ := s
  rw [isEmpty_mk] at h
  rcases l with _ | ⟨c, r⟩
  · simp at h
  · rw [pyUnquote, isEmpty_mk]
    simpa using unquoteChars_ne_nil c r

/-- A title produced by the URL extractor is never empty (`.strip() or None`). -/
theorem extract_some_nonempty (url t : String)
    (h : extract_title_from_tiktok_url url = some t) : t.isEmpty = false := by
  unfold extract_title_from_tiktok_url at h
  rcases hS : reSearch url.data with _ | g <;> rw [hS] at h
  · simp at h
  · dsimp only at h
    split at h
    · simp at h
    · rename_i hne
      obtain rfl := Option.some.inj h
      simpa using hne

/-- Closed form of `get_collection_info`: the uploader is exactly what the
fetch step yields at position 0, and the title is the URL-derived title when
truthy, the fetched title otherwise. -/
theorem get_collection_info_spec (url : String) (fetch : FetchOutcome) :
    get_collection_info url fetch =
      [("uploader", fetchedOpt fetch 0),
       ("playlist_title",
         if truthyOpt (extract_title_from_tiktok_url url) then
           extract_title_from_tiktok_url url
         else fetchedOpt fetch 1)] := by
  cases fetch with
  | notFound =>
      simp only [get_collection_info, SUPPORTED_FIELDS, List.map_cons, List.map_nil,
        fetchedOpt]
      split
      · simp [pySet]
      · rfl
  | output stdout =>
      simp only [get_collection_info, SUPPORTED_FIELDS, List.map_cons, List.map_nil,
        fetchedOpt, fieldsLoop, fetchedValue, fetchedRaw, Nat.reduceAdd]
      set r0 := pyStrip ((List.drop 0 (pySplit (pyFirstLine stdout) DELIM)).headD "") with hr0
      set r1 := pyStrip ((List.drop 1 (pySplit (pyFirstLine stdout) DELIM)).headD "") with hr1
      clear hr0 hr1
      clear_value r0 r1
      by_cases hA0 : r0.isEmpty = true
      all_goals by_cases hB0 : pyUpper r0 = "NA"
      all_goals by_cases hA1 : r1.isEmpty = true
      all_goals by_cases hB1 : pyUpper r1 = "NA"
      all_goals cases hE : extract_title_from_tiktok_url url with
        | none => simp [hA0, hB0, hA1, hB1, truthyOpt, pySet, truthyKey, pyGetOpt, pyLookup]
        | some sᵤ =>
            by_cases hs : sᵤ.isEmpty <;>
              simp [hA0, hB0, hA1, hB1, hs, truthyOpt, pySet, truthyKey, pyGetOpt, pyLookup]

/-! ## Claim theorems -/

def exampleURL : String :=
  "https://www.tiktok.com/@user/collection/sample%3F-7543443541872102166"

/-- C1: for every URL, the resolved CollectionInfo's `playlist_title` is the
URL Title Extractor's result whenever that extractor returns a value; only
when URL extraction yields no value is the fetched `playlist_title` used;
when neither source yields a value the field is absent; and the `uploader`
field always comes from the fetched metadata, never from the URL. -/
theorem C1_title_precedence (url : String) (fetch : FetchOutcome) :
    (∀ t, extract_title_from_tiktok_url url = some t →
        pyLookup (get_collection_info url fetch) "playlist_title" = some (some t)) ∧
    (extract_title_from_tiktok_url url = none →
        pyLookup (get_collection_info url fetch) "playlist_title" =
          some (fetchedOpt fetch 1)) ∧
    (extract_title_from_tiktok_url url = none → fetchedOpt fetch 1 = none →
        pyLookup (get_collection_info url fetch) "playlist_title" = some none) ∧
    pyLookup (get_collection_info url fetch) "uploader" = some (fetchedOpt fetch 0) := by
  rw [get_collection_info_spec]
  refine ⟨?_, ?_, ?_, ?_⟩
  · intro t ht
    rw [ht]
    simp [pyLookup, truthyOpt, extract_some_nonempty url t ht]
  · intro h
    rw [h]
    simp [pyLookup, truthyOpt]
  · intro h hf
    rw [h, hf]
    simp [pyLookup, truthyOpt]
  · simp [pyLookup]

theorem C1_title_precedence_witness :
    pyLookup (get_collection_info exampleURL .notFound) "playlist_title" =
      some (some "sample?") :=
  (C1_title_precedence exampleURL .notFound).1 "sample?" (by decide)

/-- C7: when parsing the external tool's output, an empty value or a literal
`NA` in any letter case is treated exactly like a missing value, every other
raw value is stored percent-decoded, only the first output line is parsed,
and the split is positional in the fixed order (uploader, playlist_title). -/
theorem C7_fetched_field_parsing (url stdout : String) (i : Nat) :
    ((fetchedRaw stdout i).isEmpty = true ∨ pyUpper (fetchedRaw stdout i) = "NA" →
        fetchedValue stdout i = none) ∧
    ((fetchedRaw stdout i).isEmpty = false → pyUpper (fetchedRaw stdout i) ≠ "NA" →
        fetchedValue stdout i = some (pyUnquote (fetchedRaw stdout i))) ∧
    (fetchedRaw stdout i ∈ (["NA", "Na", "nA", "na"] : List String) →
        fetchedValue stdout i = none) ∧
    (∀ s', pyFirstLine stdout = pyFirstLine s' →
        get_collection_info url (.output stdout) = get_collection_info url (.output s')) ∧
    pyLookup (get_collection_info url (.output stdout)) "uploader" =
      some (fetchedValue stdout 0) ∧
    (extract_title_from_tiktok_url url = none →
        pyLookup (get_collection_info url (.output stdout)) "playlist_title" =
          some (fetchedValue stdout 1)) := by
  refine ⟨?_, ?_, ?_, ?_, ?_, ?_⟩
  · intro h
    rcases h with h | h <;> simp [fetchedValue, h]
  · intro h1 h2
    simp [fetchedValue, h1, h2]
  · intro hm
    simp only [List.mem_cons, List.not_mem_nil, or_false] at hm
    rcases hm with h | h | h | h <;> simp [fetchedValue, h] <;> decide
  · intro s' h
    rw [get_collection_info_spec, get_collection_info_spec]
    simp only [fetchedOpt, fetchedValue, fetchedRaw, h]
  · rw [get_collection_info_spec]
    simp [pyLookup, fetchedOpt]
  · intro h
    rw [get_collection_info_spec, h]
    simp [pyLookup, truthyOpt, fetchedOpt]

theorem C7_fetched_field_parsing_witness :
    fetchedValue "someuser|||na" 1 = none :=
  (C7_fetched_field_parsing "" "someuser|||na" 1).2.2.1 (by decide)

/-- C8: a missing external binary never propagates as an exception: with a
`notFound` fetch outcome `get_collection_info` still returns a record with
the fetched fields absent (the URL-derived title survives), and with a
`notFound` download outcome `run` returns exit status 1 (non-zero) and emits
a non-empty stderr message. -/
theorem C8_missing_binary_handled (url base : String) (cfg : Config)
    (fetch : FetchOutcome) :
    get_collection_info url .notFound =
      [("uploader", none),
       ("playlist_title",
         if truthyOpt (extract_title_from_tiktok_url url) then
           extract_title_from_tiktok_url url
         else none)] ∧
    (run url base cfg fetch .notFound).1 = 1 ∧
    (run url base cfg fetch .notFound).1 ≠ 0 ∧
    (run url base cfg fetch .notFound).2 ≠ [] := by
  refine ⟨?_, rfl, ?_, ?_⟩
  · rw [get_collection_info_spec]
    rfl
  · intro h
    simp [run] at h
  · intro h
    simp [run] at h

/-- A value the fetch step yields is never the empty string. -/
theorem fetchedOpt_nonempty (fetch : FetchOutcome) (i : Nat) (v : String)
    (h : fetchedOpt fetch i = some v) : v.isEmpty = false := by
  cases fetch with
  | notFound => simp [fetchedOpt] at h
  | output s =>
      simp only [fetchedOpt, fetchedValue] at h
      split at h
      · rename_i hc
        obtain rfl := Option.some.inj h
        exact pyUnquote_isEmpty _ (by simpa using hc.1)
      · simp at h

/-- C4: uploader-prefix stripping never produces an empty title (the edit is
applied only when a non-empty remainder results, otherwise the record is
returned unchanged), and re-applying it to a record whose title no longer
case-insensitively starts with the uploader value is a no-op; concretely,
stripping `"DJMike - Vol1"` with uploader `"DJMike"` yields `"Vol1"` and
re-stripping `"Vol1"` changes nothing. -/
theorem C4_strip_never_empties_and_idempotent (info : PyDict) :
    (startsWithCI ((pyGetOpt info "playlist_title").getD "")
        ((pyGetOpt info "uploader").getD "") = false →
      strip_uploader_prefix info = info) ∧
    (truthyOpt (pyGetOpt info "playlist_title") = true →
      truthyOpt (pyGetOpt ( strip_uploader_prefix info) "playlist_title") = true) ∧
    ( strip_uploader_prefix info = info ∨
      ∃ s, s.isEmpty = false ∧
        strip_uploader_prefix info = pySet info "playlist_title" (some s)) ∧
    strip_uploader_prefix
        [("uploader", some "DJMike"), ("playlist_title", some "DJMike - Vol1")] =
      [("uploader", some "DJMike"), ("playlist_title", some "Vol1")] ∧
    strip_uploader_prefix
        [("uploader", some "DJMike"), ("playlist_title", some "Vol1")] =
      [("uploader", some "DJMike"), ("playlist_title", some "Vol1")] := by
  refine ⟨?_, ?_, ?_, by decide, by decide⟩
  · intro h
    unfold strip_uploader_prefix
    dsimp only
    split_ifs with h1 h2 h3 <;> first | rfl | (exact absurd h2 (by simp [h]))
  · intro h
    unfold strip_uploader_prefix
    dsimp only
    split_ifs with h1 h2 h3
    · exact h
    · exact h
    · simp only [truthyOpt, pyGetOpt, pyLookup_pySet_self]
      simpa using h3
    · exact h
  · unfold strip_uploader_prefix
    dsimp only
    split_ifs with h1 h2 h3
    · exact Or.inl rfl
    · exact Or.inl rfl
    · exact Or.inr ⟨_, by simpa using h3, rfl⟩
    · exact Or.inl rfl

theorem C4_strip_witness :
    strip_uploader_prefix
        [("uploader", some "DJMike"), ("playlist_title", some "Vol1")] =
      [("uploader", some "DJMike"), ("playlist_title", some "Vol1")] :=
  (C4_strip_never_empties_and_idempotent
    [("uploader", some "DJMike"), ("playlist_title", some "Vol1")]).1 (by decide)

/-- Well-formedness of a CollectionInfo record: exactly the two supported
keys, in order, and every present value non-empty. -/
def infoWF (d : PyDict) : Bool :=
  (d.map Prod.fst == ["uploader", "playlist_title"]) &&
    d.all (fun kv => match kv.2 with | some v => !v.isEmpty | none => true)

/-- C9: every record produced by `get_collection_info` or transformed by
`strip_uploader_prefix` has exactly the keys `uploader` and
`playlist_title`, and every present value is a non-empty string. -/
theorem C9_collection_info_wf (url : String) (fetch : FetchOutcome) (info : PyDict) :
    infoWF (get_collection_info url fetch) = true ∧
    (infoWF info = true → infoWF ( strip_uploader_prefix info) = true) := by
  constructor
  · rw [get_collection_info_spec]
    simp only [infoWF, List.map_cons, List.map_nil, List.all_cons, List.all_nil,
      Bool.and_true, Bool.and_eq_true, beq_iff_eq]
    refine ⟨trivial, ?_, ?_⟩
    · rcases hF : fetchedOpt fetch 0 with _ | v
      · rfl
      · simpa using fetchedOpt_nonempty fetch 0 v hF
    · rcases hE : extract_title_from_tiktok_url url with _ | t
      · simp only [truthyOpt, Bool.false_eq_true, if_false]
        rcases hF : fetchedOpt fetch 1 with _ | v
        · rfl
        · simpa using fetchedOpt_nonempty fetch 1 v hF
      · by_cases ht : t.isEmpty
        · simp only [truthyOpt, ht, Bool.not_true, Bool.false_eq_true, if_false]
          rcases hF : fetchedOpt fetch 1 with _ | v
          · rfl
          · simpa using fetchedOpt_nonempty fetch 1 v hF
        · simp [truthyOpt, ht]
  · intro h
    rcases info with _ | ⟨⟨k1, v1⟩, _ | ⟨⟨k2, v2⟩, rest⟩⟩
    · simp [infoWF] at h
    · simp [infoWF] at h
    · simp only [infoWF, List.map_cons, Bool.and_eq_true, beq_iff_eq,
        List.cons.injEq, List.all_cons, List.all_nil] at h
      obtain ⟨⟨rfl, rfl, hrest⟩, hvals⟩ := h
      obtain rfl : rest = [] := List.map_eq_nil_iff.mp hrest
      unfold strip_uploader_prefix
      dsimp only
      split_ifs with h1 h2 h3
      · simp only [infoWF]
        simp_all
      · simp only [infoWF]
        simp_all
      · simp only [pyGetOpt, pyLookup, if_neg, if_pos] at h1 h2 h3 ⊢
        simp only [infoWF, pySet]
        simp_all [pySet]
      · simp only [infoWF]
        simp_all



theorem isHexChar_hexDigitCh (v : Nat) (h : v < 16) :
    isHexChar (hexDigitCh v) = true := by
  interval_cases v <;> decide

theorem sha256hex_length (msg : List Nat) : (sha256hex msg).length = 64 := by
  simp [sha256hex, wordToHex, String.length]

theorem data_mk (l : List Char) : (String.mk l).data = l := rfl

theorem wordToHex_mem_hex (w : Nat) (c : Char) (h : c ∈ wordToHex w) :
    isHexChar c = true := by
  simp only [wordToHex, List.mem_cons, List.not_mem_nil, or_false] at h
  rcases h with h | h | h | h | h | h | h | h <;>
    (subst h; exact isHexChar_hexDigitCh _ (Nat.mod_lt _ (by norm_num)))

theorem sha256hex_mem_hex (msg : List Nat) (c : Char) (h : c ∈ (sha256hex msg).data) :
    isHexChar c = true := by
  simp only [sha256hex, data_mk, List.mem_append] at h
  rcases h with ((((((h | h) | h) | h) | h) | h) | h) | h <;> exact wordToHex_mem_hex _ _ h

set_option maxRecDepth 16384 in
/-- C6: the Archive Path Resolver returns `output_dir` joined with
`".yt-dlp-archive-<key>.txt"` where `<key>` is the first 12 hex characters of
the SHA-256 digest of the exact URL string (the embedded SHA-256 is pinned by
the standard `"abc"` test vector); the same `(output_dir, url)` pair always
yields the identical path, and two different output directories yield two
distinct paths for the same URL. -/
theorem C6_archive_path (d u d₁ d₂ : String) :
    get_archive_path d u =
      d ++ "/" ++ (".yt-dlp-archive-" ++ (sha256hexOfString u).take 12 ++ ".txt") ∧
    (∀ d' u', d = d' → u = u' → get_archive_path d u = get_archive_path d' u') ∧
    (d₁ ≠ d₂ → get_archive_path d₁ u ≠ get_archive_path d₂ u) ∧
    sha256hexOfString "abc" =
      "ba7816bf8f01cfea414140de5dae2223b00361a396177a9cb410ff61f20015ad" ∧
    (sha256hexOfString u).length = 64 ∧
    ∀ c ∈ ((sha256hexOfString u).take 12).data, isHexChar c = true := by
  refine ⟨rfl, ?_, ?_, by decide, sha256hex_length _, ?_⟩
  · intro d' u' hd hu
    rw [hd, hu]
  · intro hne he
    refine hne ?_
    have hd := congrArg String.data he
    simp only [get_archive_path] at hd
    simp only [String.data_append] at hd
    exact congrArg String.mk (List.append_cancel_right (List.append_cancel_right hd))
  · intro c hc
    have hsub : ((sha256hexOfString u).take 12).data ⊆ (sha256hexOfString u).data := by
      intro x hx
      rw [String.take_eq] at hx
      exact List.take_subset _ _ hx
    exact sha256hex_mem_hex _ c (hsub hc)

theorem C6_archive_path_witness :
    get_archive_path "/out/a" "https://example/collection/x-12345678901" ≠
      get_archive_path "/out/b" "https://example/collection/x-12345678901" :=
  (C6_archive_path "/out/a" "https://example/collection/x-12345678901"
    "/out/a" "/out/b").2.2.1 (by decide)

theorem C9_collection_info_wf_witness :
    infoWF ( strip_uploader_prefix
      [("uploader", some "DJMike"), ("playlist_title", some "DJMike - Vol1")]) = true :=
  (C9_collection_info_wf "" .notFound
    [("uploader", some "DJMike"), ("playlist_title", some "DJMike - Vol1")]).2 (by decide)

/-- A configuration with collection folders and uploader-prefix stripping
enabled (album embedding off). -/
def cexCfg : Config :=
  ⟨"mp3", "0", "%(title)s.%(ext)s", true, none, false, true, false, false, false, []⟩

/-- A collection URL whose URL-derived title starts with the fetched
uploader name. -/
def cexURL : String := "https://x/collection/DJMike%20-%20Vol1-12345678901"

/-- C2 is false on the code: `run` applies `strip_uploader_prefix` to the
resolved record regardless of which source produced the title.  For this URL
the URL Title Extractor produces `"DJMike - Vol1"`, yet with stripping
enabled the pipeline changes it to `"Vol1"` because the fetched uploader is
`"DJMike"`. -/
theorem C2_counterexample_url_title_stripped :
    extract_title_from_tiktok_url cexURL = some "DJMike - Vol1" ∧
    cexCfg.strip_uploader_from_collection_title = true ∧
    pyLookup (resolve_info cexURL (.output "DJMike|||NA") cexCfg) "playlist_title" ≠
      some (some "DJMike - Vol1") ∧
    pyLookup (resolve_info cexURL (.output "DJMike|||NA") cexCfg) "playlist_title" =
      some (some "Vol1") := by
  decide

/-- C2 (amended): with `needs_info` and stripping enabled, the pipeline
applies `strip_uploader_prefix` to the resolved record regardless of which
source produced the title; in particular a URL-derived title that
case-insensitively starts with the fetched uploader is stripped whenever the
remainder is non-empty. -/
theorem C2_strip_applies_regardless_of_source (url : String) (fetch : FetchOutcome)
    (cfg : Config) (t u : String)
    (hneeds : cfg.use_collection_folder = true ∨ cfg.embed_collection_as_album = true)
    (hstrip : cfg.strip_uploader_from_collection_title = true) :
    resolve_info url fetch cfg = strip_uploader_prefix (get_collection_info url fetch) ∧
    (extract_title_from_tiktok_url url = some t →
      fetchedOpt fetch 0 = some u →
      startsWithCI t u = true →
      (lstripSeps (t.drop u.length)).isEmpty = false →
      pyLookup (resolve_info url fetch cfg) "playlist_title" =
        some (some (lstripSeps (t.drop u.length)))) := by
  have h1 : resolve_info url fetch cfg =
      strip_uploader_prefix (get_collection_info url fetch) := by
    unfold resolve_info
    rcases hneeds with h | h <;> simp [h, hstrip]
  refine ⟨h1, ?_⟩
  intro hE hF hSW hs
  have ht : t.isEmpty = false := extract_some_nonempty url t hE
  have hu : u.isEmpty = false := fetchedOpt_nonempty fetch 0 u hF
  rw [h1, get_collection_info_spec, hE, hF]
  unfold strip_uploader_prefix
  dsimp only
  simp [truthyOpt, ht, hu, hSW, hs, pyGetOpt, pyLookup, pySet]

theorem C2_strip_witness :
    pyLookup (resolve_info cexURL (.output "DJMike|||NA") cexCfg) "playlist_title" =
      some (some "Vol1") := by
  have h := (C2_strip_applies_regardless_of_source cexURL (.output "DJMike|||NA")
    cexCfg "DJMike - Vol1" "DJMike" (Or.inl rfl) rfl).2
    (by decide) (by decide) (by decide) (by decide)
  exact h.trans (by decide)

/-- A single pass of the placeholder deletion is the identity on a string
containing no placeholder occurrence. -/
theorem removePHGo_noPH : ∀ fuel (l : List Char), l.length ≤ fuel →
    (∀ t, t <:+ l → placeholderAtHead t = false) → removePHGo fuel l = l := by
  intro fuel l
  induction fuel, l using removePHGo.induct with
  | case1 fuel => intro _ _; cases fuel <;> rfl
  | case2 l hne =>
      intro h1 _
      exact absurd (List.length_eq_zero.mp (Nat.le_zero.mp h1)) hne
  | case3 fuel rest x r2 hm hinner ih =>
      intro h1 h2
      have hsub : ∀ t, t <:+ '(' :: rest → placeholderAtHead t = false :=
        fun t ht => h2 t (ht.trans (List.suffix_cons '%' ('(' :: rest)))
      have hlen : ('(' :: rest).length ≤ fuel := by
        simp only [List.length_cons] at h1 ⊢
        omega
      rw [removePHGo, hm]
      simp only [hinner, if_true]
      exact congrArg (List.cons '%') (ih hlen hsub)
  | case4 fuel rest x r2 hm hinner ih =>
      intro h1 h2
      have := h2 ('%' :: '(' :: rest) (List.suffix_refl _)
      rw [placeholderAtHead, hm] at this
      simp only [Bool.not_eq_false'] at this
      exact absurd this hinner
  | case5 fuel rest x hm ih =>
      intro h1 h2
      have hsub : ∀ t, t <:+ '(' :: rest → placeholderAtHead t = false :=
        fun t ht => h2 t (ht.trans (List.suffix_cons '%' ('(' :: rest)))
      have hlen : ('(' :: rest).length ≤ fuel := by
        simp only [List.length_cons] at h1 ⊢
        omega
      rw [removePHGo]
      split
      · rename_i r2 heq
        exact absurd heq (fun hh => hm r2 hh)
      · exact congrArg (List.cons '%') (ih hlen hsub)
  | case6 fuel c rest hne ih =>
      intro h1 h2
      have hsub : ∀ t, t <:+ rest → placeholderAtHead t = false :=
        fun t ht => h2 t (ht.trans (List.suffix_cons c rest))
      have hlen : rest.length ≤ fuel := by
        simp only [List.length_cons] at h1
        omega
      rw [removePHGo.eq_def]
      split
      · simp_all
      · simp_all
      · rename_i heq
        injection heq with e1 e2
        exact (hne _ e1 e2).elim
      · rename_i f2 c2 rest2 hnot heqf heqc
        injection heqf with ef
        injection heqc with e1 e2
        subst ef
        subst e1
        subst e2
        exact congrArg (List.cons c) (ih hlen hsub)

/-- C5 is false on the code: deleting a placeholder can splice the
surrounding text into a new placeholder, which the single left-to-right pass
of `re.sub` never revisits.  On template `"%%(foo)s(x)s"` (no known fields
present) the resolver returns the literal `"%(x)s"`, which is itself a
placeholder. -/
theorem C5_counterexample_placeholder_leak :
    apply_folder_template "%%(foo)s(x)s" [("uploader", none), ("playlist_title", none)] =
      "%(x)s" ∧
    hasPlaceholder "%(x)s" = true ∧
    hasPlaceholder (apply_folder_template "%%(foo)s(x)s"
      [("uploader", none), ("playlist_title", none)]) = true := by
  decide

/-- C5 (amended): the Folder Name Resolver replaces each occurrence of
`%(field)s` for a known field with that field's value (empty if absent),
deletes remaining `%(anything)s` placeholders in one left-to-right
non-overlapping pass (a placeholder spliced together by a deletion can
survive), sanitizes the result, falls back to `"collection"` when the
sanitized result is empty, and the default template is
`%(playlist_title)s`. -/
theorem C5_template_resolution (template : String) (info : PyDict) (cfg : Config) :
    apply_folder_template template info =
      (if (sanitize_folder_name
            (String.mk (removePlaceholders (substFields template info).data))).isEmpty
       then "collection"
       else sanitize_folder_name
            (String.mk (removePlaceholders (substFields template info).data))) ∧
    (apply_folder_template template info).isEmpty = false ∧
    ((sanitize_folder_name
        (String.mk (removePlaceholders (substFields template info).data))).isEmpty = true →
      apply_folder_template template info = "collection") ∧
    (cfg.collection_folder_template = none → templateOf cfg = "%(playlist_title)s") ∧
    (hasPlaceholder (substFields template info) = false →
      removePlaceholders (substFields template info).data =
        (substFields template info).data) ∧
    apply_folder_template "%(playlist_title)s"
      [("uploader", some "U"), ("playlist_title", some "Test")] = "Test" ∧
    apply_folder_template "%(unknown)s" [("uploader", none), ("playlist_title", none)] =
      "collection" := by
  refine ⟨rfl, ?_, ?_, ?_, ?_, by decide, by decide⟩
  · unfold apply_folder_template
    dsimp only
    split_ifs with h
    · decide
    · simpa using h
  · intro h
    unfold apply_folder_template
    dsimp only
    rw [if_pos h]
  · intro h
    simp [templateOf, h]
  · intro h
    unfold removePlaceholders
    apply removePHGo_noPH _ _ le_rfl
    intro t ht
    simp only [hasPlaceholder, List.any_eq_false] at h
    exact Bool.not_eq_true _ ▸ h t ((List.mem_tails t _).mpr ht)

theorem C5_template_resolution_witness :
    templateOf ⟨"mp3", "0", "%(title)s.%(ext)s", true, none, false, false, false,
      false, false, []⟩ = "%(playlist_title)s" :=
  (C5_template_resolution "" [] ⟨"mp3", "0", "%(title)s.%(ext)s", true, none, false,
    false, false, false, false, []⟩).2.2.2.1 rfl

/-! ## Sanitizer idempotence -/

def headNotSpace : List Char → Bool
  | [] => true
  | d :: _ => !pyIsSpace d

/-- Normal form for whitespace after one collapse pass: every whitespace
character is a single space not followed by further whitespace. -/
def wsNormal : List Char → Bool
  | [] => true
  | c :: rest => (!pyIsSpace c || (c == ' ' && headNotSpace rest)) && wsNormal rest

theorem headNotSpace_collapseGo_true (l : List Char) :
    headNotSpace (collapseGo true l) = true := by
  induction l with
  | nil => rfl
  | cons d r ih =>
      rw [collapseGo]
      by_cases hd : pyIsSpace d
      · simp only [hd, if_true, if_pos]
        exact ih
      · simp only [hd, if_false, if_neg, Bool.false_eq_true, not_false_iff]
        simp [headNotSpace, hd]

theorem wsNormal_collapseGo (l : List Char) : ∀ b, wsNormal (collapseGo b l) = true := by
  induction l with
  | nil => intro b; rfl
  | cons c rest ih =>
      intro b
      rw [collapseGo]
      by_cases hc : pyIsSpace c
      · cases b with
        | true => simp only [hc, if_true, if_pos]; exact ih true
        | false =>
            simp only [hc, if_true, if_pos, Bool.false_eq_true]
            simp [wsNormal, headNotSpace_collapseGo_true, ih true]
      · simp [wsNormal, hc, ih false]

theorem collapseGo_true_eq_false (l : List Char) (h : headNotSpace l = true) :
    collapseGo true l = collapseGo false l := by
  cases l with
  | nil => rfl
  | cons d r =>
      have hd : pyIsSpace d = false := by simpa [headNotSpace] using h
      rw [collapseGo, collapseGo]
      simp [hd]

theorem wsNormal_tail (c : Char) (rest : List Char) (h : wsNormal (c :: rest) = true) :
    wsNormal rest = true := by
  rw [wsNormal, Bool.and_eq_true] at h
  exact h.2

theorem collapseGo_false_of_wsNormal (l : List Char) (h : wsNormal l = true) :
    collapseGo false l = l := by
  induction l with
  | nil => rfl
  | cons c rest ih =>
      have hrest := wsNormal_tail c rest h
      rw [wsNormal, Bool.and_eq_true] at h
      rw [collapseGo]
      by_cases hc : pyIsSpace c
      · have h1 : (c == ' ' && headNotSpace rest) = true := by
          rcases Bool.or_eq_true_iff.mp h.1 with h' | h'
          · simp [hc] at h'
          · exact h'
        rw [Bool.and_eq_true] at h1
        obtain rfl : c = ' ' := by simpa using h1.1
        simp only [hc, if_true, if_pos, Bool.false_eq_true, if_false]
        rw [collapseGo_true_eq_false rest h1.2, ih hrest]
        try simp
      · simp only [hc, Bool.false_eq_true, if_neg, not_false_iff]
        rw [ih hrest]

theorem wsNormal_dropWhile (p : Char → Bool) (l : List Char) (h : wsNormal l = true) :
    wsNormal (l.dropWhile p) = true := by
  induction l with
  | nil => exact h
  | cons c rest ih =>
      by_cases hc : p c
      · rw [List.dropWhile_cons_of_pos hc]
        exact ih (wsNormal_tail c rest h)
      · rwa [List.dropWhile_cons_of_neg hc]

theorem wsNormal_append_left (l m : List Char) (h : wsNormal (l ++ m) = true) :
    wsNormal l = true := by
  induction l with
  | nil => rfl
  | cons c l' ih =>
      rw [List.cons_append] at h
      rw [wsNormal, Bool.and_eq_true] at h ⊢
      refine ⟨?_, ih h.2⟩
      rcases Bool.or_eq_true_iff.mp h.1 with h' | h'
      · simp [h']
      · rw [Bool.and_eq_true] at h'
        cases l' with
        | nil => simp [headNotSpace, h'.1]
        | cons d r =>
            rw [List.cons_append] at h'
            simp only [headNotSpace] at h' ⊢
            simp [h'.1, h'.2]

theorem wsNormal_rdropWhile (p : Char → Bool) (l : List Char) (h : wsNormal l = true) :
    wsNormal (l.rdropWhile p) = true := by
  obtain ⟨m, hm⟩ := List.rdropWhile_prefix p (l := l)
  refine wsNormal_append_left _ m ?_
  rw [hm]
  exact h

theorem mem_collapseGo (c : Char) (l : List Char) :
    ∀ b, c ∈ collapseGo b l → c = ' ' ∨ c ∈ l := by
  induction l with
  | nil => intro b h; simp [collapseGo] at h
  | cons d rest ih =>
      intro b h
      rw [collapseGo] at h
      by_cases hd : pyIsSpace d
      · simp only [hd, if_true, if_pos] at h
        cases b with
        | true =>
            rcases ih true h with h' | h'
            · exact Or.inl h'
            · exact Or.inr (List.mem_cons_of_mem d h')
        | false =>
            simp only [Bool.false_eq_true, if_false] at h
            rcases List.mem_cons.mp h with h' | h'
            · exact Or.inl h'
            · rcases ih true h' with h'' | h''
              · exact Or.inl h''
              · exact Or.inr (List.mem_cons_of_mem d h'')
      · simp only [hd, Bool.false_eq_true, if_neg, not_false_iff, if_false] at h
        rcases List.mem_cons.mp h with h' | h'
        · exact Or.inr (h' ▸ List.mem_cons_self d rest)
        · rcases ih false h' with h'' | h''
          · exact Or.inl h''
          · exact Or.inr (List.mem_cons_of_mem d h'')

theorem mem_stripChars (c : Char) (l : List Char) (h : c ∈ stripChars l) : c ∈ l := by
  unfold stripChars at h
  have h1 := (List.rdropWhile_prefix pyIsSpace (l := l.dropWhile pyIsSpace)).sublist.subset h
  exact (List.dropWhile_suffix pyIsSpace).sublist.subset h1

theorem dropWhile_head_false (p : Char → Bool) : ∀ (l : List Char) (y : Char)
    (ys : List Char), l.dropWhile p = y :: ys → p y = false := by
  intro l
  induction l with
  | nil => intro y ys h; simp at h
  | cons c rest ih =>
      intro y ys h
      by_cases hc : p c
      · rw [List.dropWhile_cons_of_pos hc] at h
        exact ih y ys h
      · rw [List.dropWhile_cons_of_neg hc] at h
        injection h with e1 e2
        subst e1
        simpa using hc

theorem dropWhile_stripChars (l : List Char) :
    (stripChars l).dropWhile pyIsSpace = stripChars l := by
  rcases hx : stripChars l with _ | ⟨x, xs⟩
  · rfl
  · have hpre : stripChars l <+: l.dropWhile pyIsSpace := by
      unfold stripChars
      exact List.rdropWhile_prefix pyIsSpace (l.dropWhile pyIsSpace)
    rw [hx] at hpre
    obtain ⟨m, hm⟩ := hpre
    have hh : (l.dropWhile pyIsSpace).head? = some x := by
      rw [← hm]
      simp
    have hnot : pyIsSpace x = false := by
      rcases hdw : l.dropWhile pyIsSpace with _ | ⟨y, ys⟩
      · rw [hdw] at hh
        simp at hh
      · rw [hdw] at hh
        obtain rfl : y = x := by simpa using hh
        exact dropWhile_head_false pyIsSpace l y ys hdw
    rw [List.dropWhile_cons_of_neg (by simp [hnot])]

theorem stripChars_idempotent (l : List Char) :
    stripChars (stripChars l) = stripChars l := by
  conv_lhs => rw [stripChars]
  rw [dropWhile_stripChars]
  conv_lhs => rw [stripChars]
  rw [List.rdropWhile_idempotent]
  rw [← stripChars]

/-- C10: the Text Sanitizer is idempotent — a once-sanitized name contains
no forbidden or control characters, no whitespace runs, and no leading or
trailing whitespace, so a second pass changes nothing. -/
theorem C10_sanitize_idempotent (s : String) :
    sanitize_folder_name (sanitize_folder_name s) = sanitize_folder_name s := by
  unfold sanitize_folder_name
  set l0 := (s.data.filter fun c => !isForbidden c).filter (fun c => !isControl c) with hl0
  set out := stripChars (collapseWS l0) with hout
  rw [data_mk]
  have hmem : ∀ c ∈ out, (!isForbidden c) = true ∧ (!isControl c) = true := by
    intro c hc
    rcases mem_collapseGo c l0 false (mem_stripChars c _ hc) with rfl | hcl
    · exact ⟨by decide, by decide⟩
    · rw [hl0] at hcl
      have h2 : c ∈ List.filter (fun c => !isForbidden c) s.data ∧ (!isControl c) = true :=
        List.mem_filter.mp hcl
      exact ⟨(List.mem_filter.mp h2.1).2, h2.2⟩
  have hf1 : out.filter (fun c => !isForbidden c) = out :=
    List.filter_eq_self.mpr fun a ha => (hmem a ha).1
  rw [hf1]
  have hf2 : out.filter (fun c => !isControl c) = out :=
    List.filter_eq_self.mpr fun a ha => (hmem a ha).2
  rw [hf2]
  have hws : wsNormal out = true := by
    rw [hout]
    unfold stripChars
    exact wsNormal_rdropWhile _ _ (wsNormal_dropWhile _ _ (wsNormal_collapseGo l0 false))
  rw [show collapseWS out = out from collapseGo_false_of_wsNormal out hws]
  rw [hout, stripChars_idempotent]

/-! ## Declarative characterization of the URL Title Extractor -/

/-- Declarative reading of `(.+?)-(\d{10,})(?:[/?#]|$)` at the start of `t`
with group-1 length `k`. -/
def groupMatch (t : List Char) (k : Nat) : Prop :=
  1 ≤ k ∧ (∀ c ∈ t.take k, c ≠ '\n') ∧ (t.drop k).head? = some '-' ∧
    digitsOk (t.drop (k + 1)) = true

/-- Declarative reading of the full pattern at start position `i` of `cs`
with group-1 length `k`. -/
def matchesAt (cs : List Char) (i k : Nat) : Prop :=
  collectionLit.isPrefixOf (cs.drop i) = true ∧ groupMatch (cs.drop (i + 12)) k

theorem groupMatch_one (c : Char) (rest : List Char) :
    groupMatch (c :: rest) 1 ↔
      (c ≠ '\n' ∧ rest.head? = some '-' ∧ digitsOk rest.tail = true) := by
  unfold groupMatch
  simp [List.drop_one]

theorem groupMatch_succ (c : Char) (rest : List Char) (k : Nat) (hk : 1 ≤ k) :
    groupMatch (c :: rest) (k + 1) ↔ (c ≠ '\n' ∧ groupMatch rest k) := by
  unfold groupMatch
  constructor
  · rintro ⟨-, hall, hhd, hdg⟩
    refine ⟨hall c (by simp), hk, fun d hd => hall d ?_, ?_, ?_⟩
    · rw [List.take_succ_cons]
      exact List.mem_cons_of_mem c hd
    · simpa using hhd
    · simpa using hdg
  · rintro ⟨hc, -, hall, hhd, hdg⟩
    refine ⟨by omega, ?_, by simpa using hhd, by simpa using hdg⟩
    intro d hd
    rw [List.take_succ_cons] at hd
    rcases List.mem_cons.mp hd with rfl | hd
    · exact hc
    · exact hall d hd

theorem matchTail_spec (t : List Char) :
    (matchTail t = none → ∀ k, ¬ groupMatch t k) ∧
    (∀ g, matchTail t = some g →
      ∃ k, groupMatch t k ∧ (∀ k', groupMatch t k' → k ≤ k') ∧ g = t.take k) := by
  induction t with
  | nil =>
      constructor
      · intro _ k hk
        rcases hk with ⟨hk1, -, hhd, -⟩
        simp at hhd
      · intro g hg
        simp [matchTail] at hg
  | cons c rest ih =>
      by_cases hc : c = '\n'
      · subst hc
        constructor
        · intro _ k hk
          rcases hk with ⟨hk1, hall, -, -⟩
          exact hall '\n' (by cases k with | zero => omega | succ n => simp) rfl
        · intro g hg
          rw [matchTail] at hg
          simp at hg
      · by_cases hguard : rest.head? = some '-' ∧ digitsOk rest.tail = true
        · constructor
          · intro hnone
            rw [matchTail, if_neg hc, if_pos hguard] at hnone
            simp at hnone
          · intro g hg
            rw [matchTail, if_neg hc, if_pos hguard] at hg
            obtain rfl := Option.some.inj hg
            refine ⟨1, (groupMatch_one c rest).mpr ⟨hc, hguard.1, hguard.2⟩, ?_, by simp⟩
            intro k' hk'
            exact hk'.1
        · have hstep : matchTail (c :: rest) = (matchTail rest).map (c :: ·) := by
            rw [matchTail, if_neg hc, if_neg hguard]
          have hnot1 : ¬ groupMatch (c :: rest) 1 := by
            rw [groupMatch_one]
            rintro ⟨-, h1, h2⟩
            exact hguard ⟨h1, h2⟩
          constructor
          · intro hnone k hk
            rw [hstep] at hnone
            have hrest : matchTail rest = none := by
              rcases hm : matchTail rest with _ | g'
              · rfl
              · rw [hm] at hnone
                simp at hnone
            rcases Nat.lt_or_ge k 2 with hlt | hge
            · have hk1 : k = 1 := by
                rcases hk with ⟨h1, -, -, -⟩
                omega
              exact hnot1 (hk1 ▸ hk)
            · obtain ⟨k', rfl⟩ : ∃ k', k = k' + 1 := ⟨k - 1, by omega⟩
              have := (groupMatch_succ c rest k' (by omega)).mp hk
              exact ih.1 hrest k' this.2
          · intro g hg
            rw [hstep] at hg
            rcases hm : matchTail rest with _ | g'
            · rw [hm] at hg
              simp at hg
            · rw [hm] at hg
              simp only [Option.map_some'] at hg
              obtain rfl := Option.some.inj hg
              obtain ⟨k₀, hQ, hmin, rfl⟩ := ih.2 g' hm
              have hk₀ : 1 ≤ k₀ := hQ.1
              refine ⟨k₀ + 1, (groupMatch_succ c rest k₀ hk₀).mpr ⟨hc, hQ⟩, ?_, by
                simp [List.take_succ_cons]⟩
              intro k' hk'
              have h1 : 1 ≤ k' := hk'.1
              rcases Nat.lt_or_ge k' 2 with hlt | hge
              · have : k' = 1 := by omega
                exact absurd (this ▸ hk') hnot1
              · obtain ⟨k'', rfl⟩ : ∃ k'', k' = k'' + 1 := ⟨k' - 1, by omega⟩
                have := (groupMatch_succ c rest k'' (by omega)).mp hk'
                have := hmin k'' this.2
                omega

theorem matchesAt_succ_cons (c : Char) (rest : List Char) (i k : Nat) :
    matchesAt (c :: rest) (i + 1) k ↔ matchesAt rest i k := by
  unfold matchesAt
  have h2 : (c :: rest).drop (i + 1 + 12) = rest.drop (i + 12) := by
    have h : i + 1 + 12 = (i + 12) + 1 := by omega
    rw [h]
    rfl
  rw [List.drop_succ_cons, h2]

theorem matchesAt_zero (cs : List Char) (k : Nat) :
    matchesAt cs 0 k ↔
      (collectionLit.isPrefixOf cs = true ∧ groupMatch (cs.drop 12) k) := by
  unfold matchesAt
  rw [List.drop_zero, Nat.zero_add]

theorem collectionLit_length : collectionLit.length = 12 := rfl

theorem reSearch_spec (cs : List Char) :
    (reSearch cs = none → ∀ i k, ¬ matchesAt cs i k) ∧
    (∀ g, reSearch cs = some g →
      ∃ i, (∃ k, matchesAt cs i k) ∧ (∀ i', (∃ k', matchesAt cs i' k') → i ≤ i') ∧
        matchTail (cs.drop (i + 12)) = some g) := by
  induction cs with
  | nil =>
      constructor
      · intro _ i k hm
        rcases hm with ⟨hp, -⟩
        rw [List.drop_nil] at hp
        simp [collectionLit] at hp
      · intro g hg
        simp [reSearch] at hg
  | cons c rest ih =>
      have step : ∀ (hnom0 : ∀ k, ¬ matchesAt (c :: rest) 0 k)
          (hre : reSearch (c :: rest) = reSearch rest),
          (reSearch (c :: rest) = none → ∀ i k, ¬ matchesAt (c :: rest) i k) ∧
          (∀ g, reSearch (c :: rest) = some g →
            ∃ i, (∃ k, matchesAt (c :: rest) i k) ∧
              (∀ i', (∃ k', matchesAt (c :: rest) i' k') → i ≤ i') ∧
              matchTail ((c :: rest).drop (i + 12)) = some g) := by
        intro hnom0 hre
        constructor
        · intro hnone i k hm
          rw [hre] at hnone
          cases i with
          | zero => exact hnom0 k hm
          | succ j => exact ih.1 hnone j k ((matchesAt_succ_cons c rest j k).mp hm)
        · intro g hg
          rw [hre] at hg
          obtain ⟨j, ⟨k₁, hk₁⟩, hmin, hmt⟩ := ih.2 g hg
          refine ⟨j + 1, ⟨k₁, (matchesAt_succ_cons c rest j k₁).mpr hk₁⟩, ?_, ?_⟩
          · intro i' hi'
            cases i' with
            | zero =>
                obtain ⟨k', hk'⟩ := hi'
                exact absurd hk' (hnom0 k')
            | succ j' =>
                obtain ⟨k', hk'⟩ := hi'
                have := hmin j' ⟨k', (matchesAt_succ_cons c rest j' k').mp hk'⟩
                omega
          · have harith : j + 1 + 12 = (j + 12) + 1 := by omega
            rw [harith, List.drop_succ_cons]
            exact hmt
      by_cases hP : collectionLit.isPrefixOf (c :: rest) = true
      · rcases hM : matchTail ((c :: rest).drop 12) with _ | g₀
        · have hre : reSearch (c :: rest) = reSearch rest := by
            rw [reSearch, if_pos hP, collectionLit_length, hM]
          have hnom0 : ∀ k, ¬ matchesAt (c :: rest) 0 k := by
            intro k hm
            rw [matchesAt_zero] at hm
            exact (matchTail_spec _).1 hM k hm.2
          exact step hnom0 hre
        · have hre : reSearch (c :: rest) = some g₀ := by
            rw [reSearch, if_pos hP, collectionLit_length, hM]
          constructor
          · intro hnone
            rw [hre] at hnone
            simp at hnone
          · intro g hg
            rw [hre] at hg
            obtain rfl := Option.some.inj hg
            obtain ⟨k₀, hQ, -, -⟩ := (matchTail_spec _).2 g₀ hM
            refine ⟨0, ⟨k₀, (matchesAt_zero _ k₀).mpr ⟨hP, hQ⟩⟩, fun i' _ => Nat.zero_le i', ?_⟩
            rw [Nat.zero_add]
            exact hM
      · have hre : reSearch (c :: rest) = reSearch rest := by
          rw [reSearch, if_neg hP]
        have hnom0 : ∀ k, ¬ matchesAt (c :: rest) 0 k := by
          intro k hm
          rw [matchesAt_zero] at hm
          exact hP hm.1
        exact step hnom0 hre

/-- The percent-decoded, stripped group-1 text at position `i` with length
`k` (the value the extractor returns when this is the match). -/
def groupDecode (cs : List Char) (i k : Nat) : String :=
  pyStrip (pyUnquote (String.mk ((cs.drop (i + 12)).take k)))

theorem reSearch_leftmost (cs : List Char) (g : List Char)
    (hg : reSearch cs = some g) :
    ∃ i k, matchesAt cs i k ∧ (∀ i', (∃ k', matchesAt cs i' k') → i ≤ i') ∧
      (∀ k', matchesAt cs i k' → k ≤ k') ∧ g = (cs.drop (i + 12)).take k := by
  obtain ⟨i, hex, himin, hmt⟩ := (reSearch_spec cs).2 g hg
  obtain ⟨k, hQ, hkmin, rfl⟩ := (matchTail_spec _).2 g hmt
  obtain ⟨k₁, hk₁⟩ := hex
  refine ⟨i, k, ⟨hk₁.1, hQ⟩, himin, ?_, rfl⟩
  intro k' hk'
  exact hkmin k' hk'.2

/-- C3: `extract_title_from_tiktok_url` returns `some t` exactly when the
URL contains the pattern `/collection/<Name>-<NumericID>` (with the numeric
run at least 10 digits long, followed by `/`, `?`, `#` or the end of the
string) at the leftmost possible start position, with `<Name>` the shortest
(non-greedy) group there, and `t` its percent-decoded, stripped, non-empty
text; it returns `none` exactly when no position matches or the decoded and
trimmed name is empty.  In particular the `sample%3F` URL yields
`"sample?"` and `.../collection/abc-123` yields no value. -/
theorem C3_url_extractor (url : String) :
    (∀ t, extract_title_from_tiktok_url url = some t ↔
       ∃ i k, matchesAt url.data i k ∧
         (∀ i', (∃ k', matchesAt url.data i' k') → i ≤ i') ∧
         (∀ k', matchesAt url.data i k' → k ≤ k') ∧
         t = groupDecode url.data i k ∧ t.isEmpty = false) ∧
    (extract_title_from_tiktok_url url = none ↔
       (∀ i k, ¬ matchesAt url.data i k) ∨
       ∃ i k, matchesAt url.data i k ∧
         (∀ i', (∃ k', matchesAt url.data i' k') → i ≤ i') ∧
         (∀ k', matchesAt url.data i k' → k ≤ k') ∧
         (groupDecode url.data i k).isEmpty = true) ∧
    extract_title_from_tiktok_url exampleURL = some "sample?" ∧
    extract_title_from_tiktok_url "https://www.tiktok.com/@user/collection/abc-123" =
      none := by
  have huniq : ∀ i k i' k',
      (matchesAt url.data i k ∧ (∀ j, (∃ m, matchesAt url.data j m) → i ≤ j) ∧
        (∀ m, matchesAt url.data i m → k ≤ m)) →
      (matchesAt url.data i' k' ∧ (∀ j, (∃ m, matchesAt url.data j m) → i' ≤ j) ∧
        (∀ m, matchesAt url.data i' m → k' ≤ m)) →
      i = i' ∧ k = k' := by
    rintro i k i' k' ⟨hm, himin, hkmin⟩ ⟨hm', himin', hkmin'⟩
    have hi : i = i' := Nat.le_antisymm (himin i' ⟨k', hm'⟩) (himin' i ⟨k, hm⟩)
    subst hi
    exact ⟨rfl, Nat.le_antisymm (hkmin k' hm') (hkmin' k hm)⟩
  refine ⟨?_, ?_, by decide, by decide⟩
  · intro t
    constructor
    · intro h
      unfold extract_title_from_tiktok_url at h
      rcases hS : reSearch url.data with _ | g <;> rw [hS] at h
      · simp at h
      · dsimp only at h
        obtain ⟨i, k, hm, himin, hkmin, rfl⟩ := reSearch_leftmost url.data g hS
        split at h
        · simp at h
        · rename_i hne
          obtain rfl := Option.some.inj h
          exact ⟨i, k, hm, himin, hkmin, rfl, by simpa using hne⟩
    · rintro ⟨i, k, hm, himin, hkmin, rfl, hne⟩
      unfold extract_title_from_tiktok_url
      rcases hS : reSearch url.data with _ | g
      · exact absurd hm ((reSearch_spec url.data).1 hS i k)
      · obtain ⟨i₀, k₀, hm₀, himin₀, hkmin₀, rfl⟩ := reSearch_leftmost url.data g hS
        obtain ⟨hi, hk⟩ := huniq i₀ k₀ i k ⟨hm₀, himin₀, hkmin₀⟩ ⟨hm, himin, hkmin⟩
        subst hi
        subst hk
        dsimp only
        rw [if_neg (by simpa using hne)]
        rfl
  · constructor
    · intro h
      rcases hS : reSearch url.data with _ | g
      · exact Or.inl ((reSearch_spec url.data).1 hS)
      · unfold extract_title_from_tiktok_url at h
        rw [hS] at h
        dsimp only at h
        obtain ⟨i, k, hm, himin, hkmin, rfl⟩ := reSearch_leftmost url.data g hS
        split at h
        · rename_i hemp
          exact Or.inr ⟨i, k, hm, himin, hkmin, hemp⟩
        · simp at h
    · intro h
      unfold extract_title_from_tiktok_url
      rcases hS : reSearch url.data with _ | g
      · rfl
      · obtain ⟨i₀, k₀, hm₀, himin₀, hkmin₀, rfl⟩ := reSearch_leftmost url.data g hS
        rcases h with h | ⟨i, k, hm, himin, hkmin, hemp⟩
        · exact absurd hm₀ (h i₀ k₀)
        · obtain ⟨hi, hk⟩ := huniq i₀ k₀ i k ⟨hm₀, himin₀, hkmin₀⟩ ⟨hm, himin, hkmin⟩
          subst hi
          subst hk
          unfold groupDecode at hemp
          dsimp only
          rw [if_pos hemp]

theorem C3_url_extractor_witness :
    extract_title_from_tiktok_url exampleURL = some "sample?" :=
  (C3_url_extractor exampleURL).2.2.1
